import Mathlib

/-!
Shallow embedding of the security core of the Urban Mobility backend
(`src/Controllers/encryption.py`, `hashing.py`, `authorization.py`,
`logger.py`, `auth.py`), together with theorems checking the
natural-language specification against it.

Python strings are `String`, byte strings are `List Nat` with entries
below 256, and raised exceptions are an explicit `PyErr` in an `Except`
result.  The external `cryptography.fernet.Fernet` primitive is modelled
abstractly as a `FernetSuite`: a pair of byte-level functions together
with the library's documented contract (decrypting a token produced by
the same key returns the original bytes, and tokens are bytes).  The
standard-library pieces the code calls (`utf-8` codecs, `base64`,
`hashlib.sha256`) are implemented concretely below.
-/

/-- Python exception values that the embedded code can raise. -/
inductive PyErr where
  | runtimeError (msg : String)
  | valueError (msg : String)
  | invalidToken
  | decodeError
  deriving Repr, DecidableEq

/-! ## UTF-8 (model of Python `str.encode('utf-8')` / `bytes.decode('utf-8')`) -/

/-- UTF-8 encoding of a single code point, written with `/`, `%`, `+`
so that the byte-level arithmetic stays in `omega`'s fragment. -/
def utf8EncodeCp (n : Nat) : List Nat :=
  if n < 128 then [n]
  else if n < 2048 then [192 + n / 64, 128 + n % 64]
  else if n < 65536 then [224 + n / 4096, 128 + n / 64 % 64, 128 + n % 64]
  else [240 + n / 262144, 128 + n / 4096 % 64, 128 + n / 64 % 64, 128 + n % 64]

/-- UTF-8 encoding of a string, as a list of byte values. -/
def utf8Encode (s : String) : List Nat :=
  (s.data.map (fun c => utf8EncodeCp c.toNat)).flatten

/-- Decode the leading UTF-8 sequence starting with byte `b`, returning
the code point and the number of continuation bytes consumed; `none`
models a `UnicodeDecodeError`. -/
def utf8DecodeOne (b : Nat) (rest : List Nat) : Option (Nat × Nat) :=
  if b < 128 then some (b, 0)
  else if b < 192 then none
  else if b < 224 then
    match rest with
    | b2 :: _ =>
      if 128 ≤ b2 ∧ b2 < 192 then some ((b - 192) * 64 + (b2 - 128), 1) else none
    | [] => none
  else if b < 240 then
    match rest with
    | b2 :: b3 :: _ =>
      if (128 ≤ b2 ∧ b2 < 192) ∧ (128 ≤ b3 ∧ b3 < 192) then
        some ((b - 224) * 4096 + (b2 - 128) * 64 + (b3 - 128), 2)
      else none
    | _ => none
  else if b < 245 then
    match rest with
    | b2 :: b3 :: b4 :: _ =>
      if (128 ≤ b2 ∧ b2 < 192) ∧ (128 ≤ b3 ∧ b3 < 192) ∧ (128 ≤ b4 ∧ b4 < 192) then
        some ((b - 240) * 262144 + (b2 - 128) * 4096 + (b3 - 128) * 64 + (b4 - 128), 3)
      else none
    | _ => none
  else none

/-- Fuel-indexed UTF-8 decoding loop; the fuel is only a structural
termination device and is irrelevant as long as it covers the length of
the input (`utf8DecodeAux_congr`). -/
def utf8DecodeAux : Nat → List Nat → Option (List Char)
  | _, [] => some []
  | 0, _ :: _ => none
  | fuel + 1, b :: rest =>
    match utf8DecodeOne b rest with
    | none => none
    | some (n, k) => (utf8DecodeAux fuel (rest.drop k)).map (fun cs => Char.ofNat n :: cs)

/-- UTF-8 decoding of a byte list back to characters. -/
def utf8DecodeChars (l : List Nat) : Option (List Char) :=
  utf8DecodeAux l.length l

theorem utf8DecodeAux_congr :
    ∀ f1 f2 l, l.length ≤ f1 → l.length ≤ f2 → utf8DecodeAux f1 l = utf8DecodeAux f2 l := by
  intro f1
  induction f1 with
  | zero =>
    intro f2 l h1 _
    have : l = [] := List.eq_nil_of_length_eq_zero (by omega)
    subst this
    cases f2 <;> rfl
  | succ f1 ih =>
    intro f2 l h1 h2
    cases l with
    | nil => cases f2 <;> rfl
    | cons b rest =>
      cases f2 with
      | zero => simp at h2
      | succ g =>
        show utf8DecodeAux (f1 + 1) (b :: rest) = utf8DecodeAux (g + 1) (b :: rest)
        rw [utf8DecodeAux, utf8DecodeAux]
        cases ho : utf8DecodeOne b rest with
        | none => rfl
        | some nk =>
          obtain ⟨n, k⟩ := nk
          have hd : (rest.drop k).length ≤ rest.length := by
            simp [List.length_drop]
          simp only [List.length_cons] at h1 h2
          show (utf8DecodeAux f1 (rest.drop k)).map (fun cs => Char.ofNat n :: cs) =
            (utf8DecodeAux g (rest.drop k)).map (fun cs => Char.ofNat n :: cs)
          rw [ih g (rest.drop k) (by omega) (by omega)]

/-- UTF-8 decoding to a string. -/
def utf8Decode (l : List Nat) : Option String :=
  (utf8DecodeChars l).map (fun cs => String.mk cs)

theorem charOfNat_toNat (c : Char) : Char.ofNat c.toNat = c := by
  have hv : c.toNat.isValidChar := c.valid
  apply Char.eq_of_val_eq
  show (Char.ofNat c.toNat).val = c.val
  unfold Char.ofNat
  rw [dif_pos hv]
  apply UInt32.eq_of_toBitVec_eq
  apply BitVec.eq_of_toNat_eq
  simp [Char.ofNatAux, Char.toNat, UInt32.toNat]

theorem char_toNat_lt (c : Char) : c.toNat < 1114112 := by
  have hv : c.toNat.isValidChar := c.valid
  rcases hv with h | ⟨_, h⟩
  · omega
  · omega

theorem utf8EncodeCp_bytes (n : Nat) (hn : n < 1114112) :
    ∀ x ∈ utf8EncodeCp n, x < 256 := by
  intro x hx
  unfold utf8EncodeCp at hx
  split at hx
  · simp at hx; omega
  · split at hx
    · simp at hx
      rcases hx with h | h <;> omega
    · split at hx
      · simp at hx
        rcases hx with h | h | h <;> omega
      · simp at hx
        rcases hx with h | h | h | h <;> omega

theorem utf8Encode_bytes (s : String) : ∀ x ∈ utf8Encode s, x < 256 := by
  intro x hx
  unfold utf8Encode at hx
  simp only [List.mem_flatten, List.mem_map] at hx
  obtain ⟨l, ⟨c, _, rfl⟩, hxl⟩ := hx
  exact utf8EncodeCp_bytes c.toNat (char_toNat_lt c) x hxl

theorem utf8DecodeOne_encodeCp (c : Char) (rest : List Nat) :
    ∃ b bs, utf8EncodeCp c.toNat = b :: bs ∧
      utf8DecodeOne b (bs ++ rest) = some (c.toNat, bs.length) := by
  have hlt := char_toNat_lt c
  unfold utf8EncodeCp
  split
  · rename_i h1
    refine ⟨c.toNat, [], rfl, ?_⟩
    unfold utf8DecodeOne
    rw [if_pos h1]
    simp
  · rename_i h1
    split
    · rename_i h2
      refine ⟨192 + c.toNat / 64, [128 + c.toNat % 64], rfl, ?_⟩
      unfold utf8DecodeOne
      rw [if_neg (by omega), if_neg (by omega), if_pos (by omega)]
      simp only [List.cons_append, List.nil_append]
      rw [if_pos ⟨by omega, by omega⟩]
      simp only [Option.some.injEq, Prod.mk.injEq, List.length_cons, List.length_nil]
      exact ⟨by omega, trivial⟩
    · rename_i h2
      split
      · rename_i h3
        refine ⟨224 + c.toNat / 4096, [128 + c.toNat / 64 % 64, 128 + c.toNat % 64], rfl, ?_⟩
        unfold utf8DecodeOne
        rw [if_neg (by omega), if_neg (by omega), if_neg (by omega), if_pos (by omega)]
        simp only [List.cons_append, List.nil_append]
        rw [if_pos ⟨⟨by omega, by omega⟩, by omega, by omega⟩]
        simp only [Option.some.injEq, Prod.mk.injEq, List.length_cons, List.length_nil]
        exact ⟨by omega, trivial⟩
      · rename_i h3
        refine ⟨240 + c.toNat / 262144,
          [128 + c.toNat / 4096 % 64, 128 + c.toNat / 64 % 64, 128 + c.toNat % 64], rfl, ?_⟩
        unfold utf8DecodeOne
        rw [if_neg (by omega), if_neg (by omega), if_neg (by omega), if_neg (by omega),
          if_pos (by omega)]
        simp only [List.cons_append, List.nil_append]
        rw [if_pos ⟨⟨by omega, by omega⟩, ⟨by omega, by omega⟩, by omega, by omega⟩]
        simp only [Option.some.injEq, Prod.mk.injEq, List.length_cons, List.length_nil]
        exact ⟨by omega, trivial⟩

theorem utf8DecodeChars_encode (c : Char) (rest : List Nat) :
    utf8DecodeChars (utf8EncodeCp c.toNat ++ rest) =
      (utf8DecodeChars rest).map (fun cs => c :: cs) := by
  obtain ⟨b, bs, he, hd⟩ := utf8DecodeOne_encodeCp c rest
  rw [he, List.cons_append]
  show utf8DecodeAux (b :: (bs ++ rest)).length (b :: (bs ++ rest)) = _
  simp only [List.length_cons]
  rw [utf8DecodeAux, hd]
  show (utf8DecodeAux (bs ++ rest).length ((bs ++ rest).drop bs.length)).map
      (fun cs => Char.ofNat c.toNat :: cs) = _
  rw [List.drop_left, charOfNat_toNat]
  rw [utf8DecodeAux_congr (bs ++ rest).length rest.length rest
    (by simp [List.length_append]) (le_refl _)]
  rfl

theorem utf8DecodeChars_utf8Encode (cs : List Char) :
    utf8DecodeChars ((cs.map (fun c => utf8EncodeCp c.toNat)).flatten) = some cs := by
  induction cs with
  | nil => rfl
  | cons c cs ih =>
    simp only [List.map_cons, List.flatten_cons]
    rw [utf8DecodeChars_encode, ih]
    rfl

theorem utf8Decode_utf8Encode (s : String) : utf8Decode (utf8Encode s) = some s := by
  unfold utf8Decode utf8Encode
  rw [utf8DecodeChars_utf8Encode]
  rfl

/-! ## Base64 (model of Python `base64.b64encode` / `base64.b64decode`) -/

/-- Character of the standard base64 alphabet at index `n < 64`. -/
def b64Char (n : Nat) : Char :=
  if n < 26 then Char.ofNat (65 + n)
  else if n < 52 then Char.ofNat (97 + (n - 26))
  else if n < 62 then Char.ofNat (48 + (n - 52))
  else if n = 62 then '+'
  else '/'

/-- Index of a character in the base64 alphabet. -/
def b64Val (ch : Char) : Option Nat :=
  if 65 ≤ ch.toNat ∧ ch.toNat ≤ 90 then some (ch.toNat - 65)
  else if 97 ≤ ch.toNat ∧ ch.toNat ≤ 122 then some (ch.toNat - 97 + 26)
  else if 48 ≤ ch.toNat ∧ ch.toNat ≤ 57 then some (ch.toNat - 48 + 52)
  else if ch = '+' then some 62
  else if ch = '/' then some 63
  else none

def b64encodeChars : List Nat → List Char
  | [] => []
  | [a] => [b64Char (a / 4), b64Char (a % 4 * 16), '=', '=']
  | [a, b] => [b64Char (a / 4), b64Char (a % 4 * 16 + b / 16), b64Char (b % 16 * 4), '=']
  | a :: b :: c :: rest =>
      b64Char (a / 4) :: b64Char (a % 4 * 16 + b / 16) :: b64Char (b % 16 * 4 + c / 64) ::
        b64Char (c % 64) :: b64encodeChars rest

/-- `base64.b64encode(bs).decode('utf-8')` on a byte list, as a string. -/
def b64encode (bs : List Nat) : String := String.mk (b64encodeChars bs)

/-- `base64.b64decode` on a character list; `none` models `binascii.Error`. -/
def b64decodeChars : List Char → Option (List Nat)
  | [] => some []
  | c1 :: c2 :: c3 :: c4 :: rest =>
    match b64Val c1, b64Val c2 with
    | some v1, some v2 =>
      if c3 = '=' then
        if c4 = '=' ∧ rest = [] ∧ v2 % 16 = 0 then some [v1 * 4 + v2 / 16] else none
      else
        match b64Val c3 with
        | some v3 =>
          if c4 = '=' then
            if rest = [] ∧ v3 % 4 = 0 then some [v1 * 4 + v2 / 16, v2 % 16 * 16 + v3 / 4]
            else none
          else
            match b64Val c4 with
            | some v4 =>
              (b64decodeChars rest).map
                (fun bs => (v1 * 4 + v2 / 16) :: (v2 % 16 * 16 + v3 / 4) :: (v3 % 4 * 64 + v4) :: bs)
            | none => none
        | none => none
    | _, _ => none
  | _ => none

/-- `base64.b64decode` on a string. -/
def b64decode (s : String) : Option (List Nat) := b64decodeChars s.data

theorem b64Val_b64Char : ∀ n < 64, b64Val (b64Char n) = some n := by decide

theorem b64Char_ne_pad : ∀ n < 64, b64Char n ≠ '=' := by decide

theorem b64decodeChars_group (v1 v2 v3 v4 : Nat) (h1 : v1 < 64) (h2 : v2 < 64)
    (h3 : v3 < 64) (h4 : v4 < 64) (rest : List Char) :
    b64decodeChars (b64Char v1 :: b64Char v2 :: b64Char v3 :: b64Char v4 :: rest) =
      (b64decodeChars rest).map
        (fun bs => (v1 * 4 + v2 / 16) :: (v2 % 16 * 16 + v3 / 4) :: (v3 % 4 * 64 + v4) :: bs) := by
  rw [b64decodeChars]
  simp only [b64Val_b64Char v1 h1, b64Val_b64Char v2 h2, b64Val_b64Char v3 h3,
    b64Val_b64Char v4 h4]
  rw [if_neg (b64Char_ne_pad v3 h3), if_neg (b64Char_ne_pad v4 h4)]

theorem b64decodeChars_pad1 (a : Nat) (ha : a < 256) :
    b64decodeChars (b64encodeChars [a]) = some [a] := by
  show b64decodeChars [b64Char (a / 4), b64Char (a % 4 * 16), '=', '='] = some [a]
  rw [b64decodeChars]
  simp only [b64Val_b64Char (a / 4) (by omega), b64Val_b64Char (a % 4 * 16) (by omega)]
  have hz : a % 4 * 16 % 16 = 0 := by omega
  simp [hz]
  omega

theorem b64decodeChars_pad2 (a b : Nat) (ha : a < 256) (hb : b < 256) :
    b64decodeChars (b64encodeChars [a, b]) = some [a, b] := by
  show b64decodeChars
    [b64Char (a / 4), b64Char (a % 4 * 16 + b / 16), b64Char (b % 16 * 4), '='] = some [a, b]
  rw [b64decodeChars]
  simp only [b64Val_b64Char (a / 4) (by omega), b64Val_b64Char (a % 4 * 16 + b / 16) (by omega),
    b64Val_b64Char (b % 16 * 4) (by omega)]
  rw [if_neg (b64Char_ne_pad (b % 16 * 4) (by omega)),
    if_pos (show True ∧ b % 16 * 4 % 4 = 0 from ⟨trivial, by omega⟩), if_pos trivial]
  simp only [Option.some.injEq, List.cons.injEq, and_true]
  omega

theorem b64decodeChars_encodeChars : ∀ bs : List Nat, (∀ x ∈ bs, x < 256) →
    b64decodeChars (b64encodeChars bs) = some bs
  | [], _ => rfl
  | [a], h => b64decodeChars_pad1 a (h a (by simp))
  | [a, b], h => b64decodeChars_pad2 a b (h a (by simp)) (h b (by simp))
  | a :: b :: c :: rest, h => by
    have ha : a < 256 := h a (by simp)
    have hb : b < 256 := h b (by simp)
    have hc : c < 256 := h c (by simp)
    have ih := b64decodeChars_encodeChars rest (fun x hx => h x (by simp [hx]))
    show b64decodeChars (b64Char (a / 4) :: b64Char (a % 4 * 16 + b / 16) ::
      b64Char (b % 16 * 4 + c / 64) :: b64Char (c % 64) :: b64encodeChars rest) =
      some (a :: b :: c :: rest)
    rw [b64decodeChars_group _ _ _ _ (by omega) (by omega) (by omega) (by omega), ih]
    show some ((a / 4 * 4 + (a % 4 * 16 + b / 16) / 16) ::
      ((a % 4 * 16 + b / 16) % 16 * 16 + (b % 16 * 4 + c / 64) / 4) ::
      ((b % 16 * 4 + c / 64) % 4 * 64 + c % 64) :: rest) = some (a :: b :: c :: rest)
    simp only [Option.some.injEq, List.cons.injEq, and_true]
    exact ⟨by omega, by omega, by omega⟩

theorem b64decode_b64encode (bs : List Nat) (h : ∀ x ∈ bs, x < 256) :
    b64decode (b64encode bs) = some bs :=
  b64decodeChars_encodeChars bs h

/-! ## Fernet (abstract model of `cryptography.fernet.Fernet`) -/

/-- Abstract model of a `Fernet` cipher object: `enc` maps plaintext
bytes to token bytes, `dec` maps token bytes back, failing (`none`,
modelling `InvalidToken`) on anything that is not a token produced under
the same key.  The two laws are the library's documented contract:
tokens are bytes, and decrypting a token produced under the active key
returns the original bytes. -/
structure FernetSuite where
  enc : List Nat → List Nat
  dec : List Nat → Option (List Nat)
  enc_bytes : ∀ bs, (∀ x ∈ bs, x < 256) → ∀ x ∈ enc bs, x < 256
  dec_enc : ∀ bs, (∀ x ∈ bs, x < 256) → dec (enc bs) = some bs

/-- A concrete suite satisfying the Fernet contract, used only to
instantiate witnesses at evaluable inputs. -/
def idSuite : FernetSuite where
  enc := fun bs => bs
  dec := fun bs => some bs
  enc_bytes := fun _ h => h
  dec_enc := fun _ _ => rfl

/-! ## SHA-256 (model of Python `hashlib.sha256(...).hexdigest()`) -/

/-- The 64 SHA-256 round constants. -/
def shaK : List Nat :=
  [1116352408, 1899447441, 3049323471, 3921009573, 961987163, 1508970993, 2453635748,
   2870763221, 3624381080, 310598401, 607225278, 1426881987, 1925078388, 2162078206,
   2614888103, 3248222580, 3835390401, 4022224774, 264347078, 604807628, 770255983,
   1249150122, 1555081692, 1996064986, 2554220882, 2821834349, 2952996808, 3210313671,
   3336571891, 3584528711, 113926993, 338241895, 666307205, 773529912, 1294757372,
   1396182291, 1695183700, 1986661051, 2177026350, 2456956037, 2730485921, 2820302411,
   3259730800, 3345764771, 3516065817, 3600352804, 4094571909, 275423344, 430227734,
   506948616, 659060556, 883997877, 958139571, 1322822218, 1537002063, 1747873779,
   1955562222, 2024104815, 2227730452, 2361852424, 2428436474, 2756734187, 3204031479,
   3329325298]

/-- The initial SHA-256 hash state. -/
def shaH0 : List Nat :=
  [1779033703, 3144134277, 1013904242, 2773480762, 1359893119, 2600822924, 528734635,
   1541459225]

/-- 32-bit right rotation, in div/mod form. -/
def rotr32 (n x : Nat) : Nat := x / 2 ^ n + x % 2 ^ n * 2 ^ (32 - n)

def xor3 (a b c : Nat) : Nat := Nat.xor (Nat.xor a b) c

def bsig0 (x : Nat) : Nat := xor3 (rotr32 2 x) (rotr32 13 x) (rotr32 22 x)

def bsig1 (x : Nat) : Nat := xor3 (rotr32 6 x) (rotr32 11 x) (rotr32 25 x)

def ssig0 (x : Nat) : Nat := xor3 (rotr32 7 x) (rotr32 18 x) (x / 2 ^ 3)

def ssig1 (x : Nat) : Nat := xor3 (rotr32 17 x) (rotr32 19 x) (x / 2 ^ 10)

def chF (x y z : Nat) : Nat := Nat.xor (Nat.land x y) (Nat.land (4294967295 - x) z)

def majF (x y z : Nat) : Nat :=
  Nat.xor (Nat.xor (Nat.land x y) (Nat.land x z)) (Nat.land y z)

/-- Big-endian 32-bit words from bytes. -/
def bytesToWords : List Nat → List Nat
  | b1 :: b2 :: b3 :: b4 :: rest =>
      (b1 * 16777216 + b2 * 65536 + b3 * 256 + b4) :: bytesToWords rest
  | _ => []

/-- One step of the SHA-256 message-schedule extension. -/
def shaExtendStep (w : List Nat) : List Nat :=
  let n := w.length
  w ++ [(ssig1 (w.getD (n - 2) 0) + w.getD (n - 7) 0 + ssig0 (w.getD (n - 15) 0) +
    w.getD (n - 16) 0) % 4294967296]

/-- The 64-word message schedule of one 64-byte block. -/
def shaSchedule (block : List Nat) : List Nat :=
  (List.range 48).foldl (fun w _ => shaExtendStep w) (bytesToWords block)

/-- One SHA-256 compression round on the 8-word working state. -/
def shaRound (st : List Nat) (kw : Nat × Nat) : List Nat :=
  match st with
  | [a, b, c, d, e, f, g, h] =>
    let t1 := (h + bsig1 e + chF e f g + kw.1 + kw.2) % 4294967296
    let t2 := (bsig0 a + majF a b c) % 4294967296
    [(t1 + t2) % 4294967296, a, b, c, (d + t1) % 4294967296, e, f, g]
  | other => other

/-- Process one 64-byte block. -/
def shaBlock (h : List Nat) (block : List Nat) : List Nat :=
  let st := (shaK.zip (shaSchedule block)).foldl shaRound h
  (h.zip st).map (fun p => (p.1 + p.2) % 4294967296)

/-- SHA-256 message padding. -/
def shaPad (msg : List Nat) : List Nat :=
  let len := msg.length
  let zeros := (64 - (len + 9) % 64) % 64
  msg ++ 128 :: List.replicate zeros 0 ++
    [len * 8 / 72057594037927936 % 256, len * 8 / 281474976710656 % 256,
     len * 8 / 1099511627776 % 256, len * 8 / 4294967296 % 256,
     len * 8 / 16777216 % 256, len * 8 / 65536 % 256, len * 8 / 256 % 256, len * 8 % 256]

/-- SHA-256 digest bytes of a byte-list message. -/
def sha256Bytes (msg : List Nat) : List Nat :=
  let padded := shaPad msg
  let final := (List.range (padded.length / 64)).foldl
    (fun h i => shaBlock h ((padded.drop (64 * i)).take 64)) shaH0
  (final.map (fun wd => [wd / 16777216 % 256, wd / 65536 % 256, wd / 256 % 256, wd % 256])).flatten

/-- Lowercase hex digit. -/
def hexChar (n : Nat) : Char :=
  if n < 10 then Char.ofNat (48 + n) else Char.ofNat (87 + n)

/-- Lowercase hex string of a byte list (Python `hexdigest`). -/
def bytesToHex (bs : List Nat) : String :=
  String.mk ((bs.map (fun b => [hexChar (b / 16), hexChar (b % 16)])).flatten)

/-- `hashlib.sha256(msg).hexdigest()`. -/
def sha256Hex (msg : List Nat) : String := bytesToHex (sha256Bytes msg)

/-! ## `src/Controllers/encryption.py` -/

namespace Encryption

/-- `encrypt_data`: raises `RuntimeError` when the module-level
`_cipher_suite` is still `None`; otherwise UTF-8-encodes the string and
encrypts it with the suite. -/
def encrypt_data (cipher_suite : Option FernetSuite) (data : String) :
    Except PyErr (List Nat) :=
  match cipher_suite with
  | none => .error (.runtimeError "Encryption not initialized")
  | some c => .ok (c.enc (utf8Encode data))

/-- `decrypt_data`: raises `RuntimeError` when uninitialized; otherwise
Fernet-decrypts the bytes and UTF-8-decodes the result. -/
def decrypt_data (cipher_suite : Option FernetSuite) (encrypted_data : List Nat) :
    Except PyErr String :=
  match cipher_suite with
  | none => .error (.runtimeError "Encryption not initialized")
  | some c =>
    match c.dec encrypted_data with
    | none => .error .invalidToken
    | some bs =>
      match utf8Decode bs with
      | none => .error .decodeError
      | some s => .ok s

/-- `encrypt_field`: `None` passes through; any other value is
encrypted and the resulting bytes are base64-encoded for storage. -/
def encrypt_field (cipher_suite : Option FernetSuite) (value : Option String) :
    Except PyErr (Option String) :=
  match value with
  | none => .ok none
  | some v =>
    match encrypt_data cipher_suite v with
    | .error e => .error e
    | .ok encrypted => .ok (some (b64encode encrypted))

/-- `decrypt_field`: `None` passes through; otherwise the `try` block
base64-decodes and calls `decrypt_data`, and the blanket
`except Exception` returns the original value if any step raises. -/
def decrypt_field (cipher_suite : Option FernetSuite) (encrypted_value : Option String) :
    Except PyErr (Option String) :=
  match encrypted_value with
  | none => .ok none
  | some v =>
    match b64decode v with
    | none => .ok (some v)
    | some bs =>
      match decrypt_data cipher_suite bs with
      | .error _ => .ok (some v)
      | .ok s => .ok (some s)

/-- `hash_password` in `encryption.py`: unsalted SHA-256 hex digest. -/
def hash_password (password : String) : String := sha256Hex (utf8Encode password)

/-- `verify_password` in `encryption.py`. -/
def verify_password (password hashed : String) : Bool := hash_password password == hashed

end Encryption

/-! ## `src/Controllers/hashing.py` -/

namespace Hashing

/-- `hash_password` in `hashing.py`: deterministic salted SHA-256.  The
salt is the f-string `f"{username[:3]}{len(username)}{first_name}{last_name}{registration_date}"`
and the digest is `sha256((salt + password).encode()).hexdigest()`;
usernames shorter than 3 characters raise `ValueError`. -/
def hash_password (password username first_name last_name registration_date : String) :
    Except PyErr String :=
  if username.length < 3 then
    .error (.valueError "Gebruikersnaam moet minimaal 3 tekens bevatten.")
  else
    let salt := username.take 3 ++ toString username.length ++ first_name ++ last_name ++
      registration_date
    .ok (sha256Hex (utf8Encode (salt ++ password)))

end Hashing

/-! ## `src/Controllers/authorization.py` -/

namespace Authorization

/-- `UserRole(IntEnum)`. -/
inductive UserRole where
  | ServiceEngineer
  | SystemAdmin
  | SuperAdmin
  deriving Repr, DecidableEq

/-- The `IntEnum` member values `ServiceEngineer = 0`, `SystemAdmin = 1`,
`SuperAdmin = 2`. -/
def UserRole.toNat : UserRole → Nat
  | .ServiceEngineer => 0
  | .SystemAdmin => 1
  | .SuperAdmin => 2

/-- `set_logged_user_role`: the value assigned to the global
`LoggedUserRole`, i.e. `role_map.get(role.lower(), None)`. -/
def set_logged_user_role (role : String) : Option UserRole :=
  if role.toLower = "service_engineer" then some .ServiceEngineer
  else if role.toLower = "system_admin" then some .SystemAdmin
  else if role.toLower = "super_admin" then some .SuperAdmin
  else none

/-- `has_required_role`, reading the global `LoggedUserRole` passed here
explicitly: `False` when no user is logged in, otherwise the `IntEnum`
comparison `LoggedUserRole >= required_role`. -/
def has_required_role (loggedUserRole : Option UserRole) (required_role : UserRole) : Bool :=
  match loggedUserRole with
  | none => false
  | some r => decide (r.toNat ≥ required_role.toNat)

end Authorization

/-! ## `src/Controllers/logger.py` -/

namespace Logger

/-- State of `logs/log.txt`: `none` when the file does not exist,
otherwise the encrypted byte lines in order. -/
abbrev LogFile := Option (List (List Nat))

/-- `log_event`: format the delimited record
`f"{now}|{username}|{action}|{extra_info}|{flag}"`, encrypt it with the
log Fernet key and append it as one line (append mode creates the file
when missing).  `now` stands for the strftime timestamp. -/
def log_event (f : FernetSuite) (now username action extra_info : String)
    (suspicious : Bool) (file : LogFile) : LogFile :=
  let flag := if suspicious then "Yes" else "No"
  let log_entry := now ++ "|" ++ username ++ "|" ++ action ++ "|" ++ extra_info ++ "|" ++ flag
  some (file.getD [] ++ [f.enc (utf8Encode log_entry)])

/-- `read_logs`: a missing file gives `[]`; otherwise decrypt each line,
split it on `"|"`, and silently skip lines that fail to decrypt. -/
def read_logs (f : FernetSuite) (file : LogFile) : List (List String) :=
  match file with
  | none => []
  | some lines =>
    lines.filterMap (fun line =>
      match f.dec line with
      | none => none
      | some bs =>
        match utf8Decode bs with
        | none => none
        | some s => some (s.splitOn "|"))

/-- `get_unread_suspicious_logs`: keep the read records whose last field
(`log[-1]`, total here via `getLastD` since `splitOn` never returns an
empty list) is `"Yes"`. -/
def get_unread_suspicious_logs (f : FernetSuite) (file : LogFile) : List (List String) :=
  (read_logs f file).filter (fun log => log.getLastD "" == "Yes")

end Logger

/-! ## `src/Controllers/auth.py` -/

namespace Auth

/-- `hash_password` in `auth.py` (it shadows the one imported from
`encryption.py`): unsalted SHA-256 hex digest of the password alone. -/
def hash_password (password : String) : String := sha256Hex (utf8Encode password)

/-- A row of the `users` table as selected by `login`:
`SELECT username, password_hash, role FROM users`. -/
structure UserRow where
  username : String
  password_hash : String
  role : String
  deriving Repr, DecidableEq

/-- Python `str.lower()` (ASCII case folding), written structurally on
the character list so that it evaluates by kernel reduction. -/
def pyLower (s : String) : String := String.mk (s.data.map Char.toLower)

/-- `decrypt_field` as the total `String → String` function it is on
non-null input: `decrypt_field_total` below proves
`Encryption.decrypt_field suite (some v) = .ok (some (decrypt_field_str suite v))`,
so `login` can never hit its dead `except`/`None` branches. -/
def decrypt_field_str (cipher_suite : Option FernetSuite) (v : String) : String :=
  match Encryption.decrypt_field cipher_suite (some v) with
  | .ok (some s) => s
  | _ => v

/-- Arguments of one `log_event` call made by `login` (the timestamp is
supplied by the logger itself). -/
structure LogEvent where
  username : String
  action : String
  extra_info : String
  suspicious : Bool
  deriving Repr, DecidableEq

/-- The `for encrypted_username, password_hash_db, role in users` loop
of `login`: first row whose decrypted username matches case-insensitively
decides the result; no row matching falls through to the
"unknown user" branch.  Returns the result pair and the `log_event`
calls made, in order. -/
def loginScan (cipher_suite : Option FernetSuite) (username password : String) :
    List UserRow → (Bool × Option String) × List LogEvent
  | [] => ((false, none), [⟨username, "Login failed (unknown user)", "", true⟩])
  | row :: rest =>
    let decrypted_username := decrypt_field_str cipher_suite row.username
    if pyLower decrypted_username = pyLower username then
      if hash_password password = row.password_hash then
        ((true, some row.role), [⟨decrypted_username, "Login successful", "", false⟩])
      else
        ((false, none), [⟨decrypted_username, "Login failed (wrong password)", "", true⟩])
    else
      loginScan cipher_suite username password rest

/-- `login` in `auth.py`: the hard-coded `super_user` check precedes the
database scan; otherwise scan all user rows. -/
def login (cipher_suite : Option FernetSuite) (users : List UserRow)
    (username password : String) : (Bool × Option String) × List LogEvent :=
  if username = "super_user" ∧ password = "Admin_123?" then
    ((true, some "super_admin"), [])
  else
    loginScan cipher_suite username password users

/-- Whether a stored row matches the supplied username after decryption,
exactly as compared inside `login`. -/
def matchesUser (cipher_suite : Option FernetSuite) (username : String) (row : UserRow) : Bool :=
  pyLower (decrypt_field_str cipher_suite row.username) == pyLower username

end Auth

/-! ## Supporting lemmas -/

theorem decrypt_field_total (cipher_suite : Option FernetSuite) (v : String) :
    Encryption.decrypt_field cipher_suite (some v) =
      .ok (some (Auth.decrypt_field_str cipher_suite v)) := by
  unfold Auth.decrypt_field_str Encryption.decrypt_field
  cases hb : b64decode v with
  | none => simp [hb]
  | some bs =>
    cases hd : Encryption.decrypt_data cipher_suite bs with
    | error e => simp [hb, hd]
    | ok s => simp [hb, hd]

/-- The successful decryption pipeline of `decrypt_field` under suite
`c`: `some s` exactly when the input is a well-formed token of the
active key whose plaintext decodes to `s`; `none` on tampered,
foreign-key, or malformed input. -/
def tokenPlaintext (c : FernetSuite) (v : String) : Option String :=
  match b64decode v with
  | none => none
  | some bs =>
    match c.dec bs with
    | none => none
    | some pt => utf8Decode pt

/-- Decidable equality for `Except`, so that concrete evaluations can
be checked with `decide`. -/
instance {ε α : Type} [DecidableEq ε] [DecidableEq α] : DecidableEq (Except ε α) := fun a b =>
  match a, b with
  | .error x, .error y =>
    if h : x = y then .isTrue (h ▸ rfl)
    else .isFalse (by intro hc; injection hc with h2; exact h h2)
  | .ok x, .ok y =>
    if h : x = y then .isTrue (h ▸ rfl)
    else .isFalse (by intro hc; injection hc with h2; exact h h2)
  | .error _, .ok _ => .isFalse (by intro hc; injection hc)
  | .ok _, .error _ => .isFalse (by intro hc; injection hc)

/-! ## Claim theorems -/

/-- C1: for every string `s`, with the key initialized,
`decrypt_field (encrypt_field s)` returns exactly `s` (round-trip over
the base64-encoded token encoding). -/
theorem C1_encrypt_decrypt_roundtrip (c : FernetSuite) (s : String) :
    ∃ t, Encryption.encrypt_field (some c) (some s) = .ok (some t) ∧
      Encryption.decrypt_field (some c) (some t) = .ok (some s) := by
  refine ⟨b64encode (c.enc (utf8Encode s)), rfl, ?_⟩
  unfold Encryption.decrypt_field Encryption.decrypt_data
  simp only [b64decode_b64encode _ (c.enc_bytes _ (utf8Encode_bytes s)),
    c.dec_enc _ (utf8Encode_bytes s), utf8Decode_utf8Encode]

/-- Witness for C1 at the repository's own encryption test vector. -/
theorem C1_encrypt_decrypt_roundtrip_witness :
    ∃ t, Encryption.encrypt_field (some idSuite) (some "test@example.com") = .ok (some t) ∧
      Encryption.decrypt_field (some idSuite) (some t) = .ok (some "test@example.com") :=
  C1_encrypt_decrypt_roundtrip idSuite "test@example.com"

/-- C4 counterexample: `decrypt_field` called before key initialization
on the non-null input `"abc"` does not raise; the blanket `except`
converts the `RuntimeError` into the sentinel return of the input. -/
theorem C4_counterexample :
    Encryption.decrypt_field none (some "abc") = Except.ok (some "abc") := by
  decide

/-- C4 amended: before key initialization `encrypt_field` on non-null
input (like `encrypt_data` and `decrypt_data`) raises
`RuntimeError("Encryption not initialized")`, but `decrypt_field`
catches that error and silently returns its input unchanged. -/
theorem C4_uninitialized_behavior :
    (∀ v, Encryption.encrypt_field none (some v) =
      .error (.runtimeError "Encryption not initialized")) ∧
    (∀ d, Encryption.encrypt_data none d =
      .error (.runtimeError "Encryption not initialized")) ∧
    (∀ bs, Encryption.decrypt_data none bs =
      .error (.runtimeError "Encryption not initialized")) ∧
    (∀ v, Encryption.decrypt_field none (some v) = .ok (some v)) := by
  refine ⟨fun v => rfl, fun d => rfl, fun bs => rfl, fun v => ?_⟩
  unfold Encryption.decrypt_field
  cases hb : b64decode v with
  | none => simp [hb]
  | some bs => simp [hb, Encryption.decrypt_data]

/-- C5: on any non-null input that is not a valid token produced under
the active key, `decrypt_field` raises nothing (it always returns an
`ok` value) and returns the original input unchanged as a sentinel. -/
theorem C5_decrypt_field_sentinel (c : FernetSuite) (v : String) :
    (∃ r, Encryption.decrypt_field (some c) (some v) = .ok r) ∧
    (tokenPlaintext c v = none →
      Encryption.decrypt_field (some c) (some v) = .ok (some v)) := by
  constructor
  · exact ⟨some (Auth.decrypt_field_str (some c) v), decrypt_field_total _ v⟩
  · intro h
    unfold tokenPlaintext at h
    unfold Encryption.decrypt_field Encryption.decrypt_data
    cases hb : b64decode v with
    | none => simp [hb]
    | some bs =>
      simp only [hb] at h
      cases hd : c.dec bs with
      | none => simp [hb, hd]
      | some pt =>
        simp only [hd] at h
        cases hu : utf8Decode pt with
        | none => simp [hb, hd, hu]
        | some s => simp [hu] at h

/-- Witness for C5 at a malformed input (not base64). -/
theorem C5_decrypt_field_sentinel_witness :
    (∃ r, Encryption.decrypt_field (some idSuite) (some "!!!") = .ok r) ∧
    Encryption.decrypt_field (some idSuite) (some "!!!") = .ok (some "!!!") :=
  ⟨(C5_decrypt_field_sentinel idSuite "!!!").1,
   (C5_decrypt_field_sentinel idSuite "!!!").2 (by decide)⟩

/-- C6: `has_required_role` denies every request when no principal is
set, and otherwise grants exactly when the logged role's ordinal is at
least the required role's ordinal
(`ServiceEngineer = 0 < SystemAdmin = 1 < SuperAdmin = 2`). -/
theorem C6_has_required_role :
    (∀ required, Authorization.has_required_role none required = false) ∧
    (∀ p required, Authorization.has_required_role (some p) required = true ↔
      p.toNat ≥ required.toNat) := by
  constructor
  · intro required
    rfl
  · intro p required
    simp [Authorization.has_required_role]

/-- C7: for a username of length at least 3 the credential hash is the
hex SHA-256 digest of the salt concatenated with the password, the salt
being first-3-characters-of-username ++ username-length ++ first name ++
last name ++ registration date; shorter usernames fail with a
`ValueError` (the spec's `InvalidInput`). -/
theorem C7_hash_password (password username first_name last_name registration_date : String) :
    (3 ≤ username.length →
      Hashing.hash_password password username first_name last_name registration_date =
        .ok (sha256Hex (utf8Encode ((username.take 3 ++ toString username.length ++
          first_name ++ last_name ++ registration_date) ++ password)))) ∧
    (username.length < 3 →
      Hashing.hash_password password username first_name last_name registration_date =
        .error (.valueError "Gebruikersnaam moet minimaal 3 tekens bevatten.")) := by
  constructor
  · intro h
    unfold Hashing.hash_password
    rw [if_neg (by omega)]
  · intro h
    unfold Hashing.hash_password
    rw [if_pos h]

/-- Witness for C7: both branches at concrete inputs. -/
theorem C7_hash_password_witness :
    (3 ≤ "abc".length ∧
      Hashing.hash_password "pw" "abc" "F" "L" "2025-06-20T15:34:00" =
        .ok (sha256Hex (utf8Encode (("abc".take 3 ++ toString "abc".length ++ "F" ++ "L" ++
          "2025-06-20T15:34:00") ++ "pw")))) ∧
    ("ab".length < 3 ∧
      Hashing.hash_password "pw" "ab" "F" "L" "d" =
        .error (.valueError "Gebruikersnaam moet minimaal 3 tekens bevatten.")) :=
  ⟨⟨by decide, (C7_hash_password "pw" "abc" "F" "L" "2025-06-20T15:34:00").1 (by decide)⟩,
   ⟨by decide, (C7_hash_password "pw" "ab" "F" "L" "d").2 (by decide)⟩⟩

/-- C8: `get_unread_suspicious_logs` is exactly the filter of
`read_logs` on the records whose suspicious flag (the last `|`-field)
is `"Yes"`, and in particular a subsequence of it in the original
order, for every log-file state (including corrupted ones). -/
theorem C8_suspicious_filter (f : FernetSuite) (file : Logger.LogFile) :
    Logger.get_unread_suspicious_logs f file =
      (Logger.read_logs f file).filter (fun log => log.getLastD "" == "Yes") ∧
    (Logger.get_unread_suspicious_logs f file).Sublist (Logger.read_logs f file) :=
  ⟨rfl, List.filter_sublist _⟩

/-- C10: when the log file does not exist, `read_logs` returns `[]`
instead of raising, and `get_unread_suspicious_logs` is `[]` too. -/
theorem C10_missing_log_file (f : FernetSuite) :
    Logger.read_logs f none = [] ∧ Logger.get_unread_suspicious_logs f none = [] :=
  ⟨rfl, rfl⟩

/-- C9: for every cipher state and record store, the hard-coded pair
`("super_user", "Admin_123?")` logs in as `super_admin` without the
store influencing the result and without one audit record being
written. -/
theorem C9_backdoor (cipher_suite : Option FernetSuite) (users : List Auth.UserRow) :
    Auth.login cipher_suite users "super_user" "Admin_123?" =
      ((true, some "super_admin"), []) := by
  unfold Auth.login
  rw [if_pos ⟨rfl, rfl⟩]

/-- C3 counterexample: the hard-coded backdoor call returns success and
writes zero audit records, not exactly one. -/
theorem C3_counterexample :
    Auth.login none [] "super_user" "Admin_123?" = ((true, some "super_admin"), []) ∧
    (Auth.login none [] "super_user" "Admin_123?").2.length = 0 := by
  unfold Auth.login
  rw [if_pos ⟨rfl, rfl⟩]
  exact ⟨rfl, rfl⟩

/-- C3 amended: except for the hard-coded `("super_user", "Admin_123?")`
backdoor (which writes no audit record), every `login` call writes
exactly one audit record before returning: suspicious "unknown user"
when no stored row matches, suspicious "wrong password" when the first
matching row's stored hash differs from the recomputed one, and
non-suspicious "login successful" when it agrees. -/
theorem C3_login_audit (cipher_suite : Option FernetSuite) (users : List Auth.UserRow)
    (username password : String)
    (h : ¬(username = "super_user" ∧ password = "Admin_123?")) :
    (Auth.login cipher_suite users username password).2 =
      [match users.find? (Auth.matchesUser cipher_suite username) with
       | none => ⟨username, "Login failed (unknown user)", "", true⟩
       | some row =>
         if Auth.hash_password password = row.password_hash then
           ⟨Auth.decrypt_field_str cipher_suite row.username, "Login successful", "", false⟩
         else
           ⟨Auth.decrypt_field_str cipher_suite row.username, "Login failed (wrong password)",
             "", true⟩] := by
  unfold Auth.login
  rw [if_neg h]
  induction users with
  | nil => rfl
  | cons row rest ih =>
    by_cases hm : Auth.matchesUser cipher_suite username row = true
    · rw [List.find?_cons_of_pos _ hm]
      have hm' : Auth.pyLower (Auth.decrypt_field_str cipher_suite row.username) =
          Auth.pyLower username := by
        simpa [Auth.matchesUser] using hm
      simp only [Auth.loginScan]
      rw [if_pos hm']
      by_cases hh : Auth.hash_password password = row.password_hash <;> simp [hh]
    · have hmf : Auth.matchesUser cipher_suite username row = false := by
        simpa using hm
      rw [List.find?_cons_of_neg _ hm]
      have hm' : ¬ (Auth.pyLower (Auth.decrypt_field_str cipher_suite row.username) =
          Auth.pyLower username) := by
        simpa [Auth.matchesUser] using hmf
      simp only [Auth.loginScan]
      rw [if_neg hm']
      exact ih

/-- Witness for C3 at a concrete non-backdoor call on the empty store. -/
theorem C3_login_audit_witness :
    ¬("alice" = "super_user" ∧ "x" = "Admin_123?") ∧
    (Auth.login none [] "alice" "x").2 =
      [match ([] : List Auth.UserRow).find? (Auth.matchesUser none "alice") with
       | none => ⟨"alice", "Login failed (unknown user)", "", true⟩
       | some row =>
         if Auth.hash_password "x" = row.password_hash then
           ⟨Auth.decrypt_field_str none row.username, "Login successful", "", false⟩
         else
           ⟨Auth.decrypt_field_str none row.username, "Login failed (wrong password)", "",
             true⟩] :=
  ⟨by decide, C3_login_audit none [] "alice" "x" (by decide)⟩

/-- The salted credential hash that `seed_users.py` computes (via the
`hashing.py` `hash_password`) for the seeded `sysadmin1` account at a
fixed registration timestamp. -/
def sysadmin1SaltedHash : String :=
  sha256Hex (utf8Encode (("sys" ++ "9" ++ "Sophie" ++ "Vermeer" ++ "2025-06-20T15:34:00") ++
    "SecurePass_456!"))

/-- The stored `password_hash` column for that account:
`encrypt_field` of the salted hash, exactly as `seed_users.py` stores
it, under the concrete `idSuite` key. -/
def sysadmin1StoredHash : String := b64encode (idSuite.enc (utf8Encode sysadmin1SaltedHash))

/-- C2 (code bug): `login` never decrypts the stored hash and never
recomputes the salted credential hash from the record's stored
attributes — it compares the unsalted SHA-256 of the caller's password
directly against the stored column.  Concretely, for the seeded
`sysadmin1` record the correct password is rejected as
"wrong password" (third conjunct), although the stored hash decrypts
(second conjunct) to exactly the salted recomputation from the record's
own attributes (first conjunct), which is what the claim says the check
compares. -/
theorem C2_password_check_diverges :
    Hashing.hash_password "SecurePass_456!" "sysadmin1" "Sophie" "Vermeer"
        "2025-06-20T15:34:00" = .ok sysadmin1SaltedHash ∧
    Encryption.decrypt_field (some idSuite) (some sysadmin1StoredHash) =
      .ok (some sysadmin1SaltedHash) ∧
    Auth.login (some idSuite) [⟨"sysadmin1", sysadmin1StoredHash, "system_admin"⟩]
        "sysadmin1" "SecurePass_456!" =
      ((false, none), [⟨"sysadmin1", "Login failed (wrong password)", "", true⟩]) :=
  ⟨by decide, by decide, by decide⟩
